import Mathlib

/-!
Shallow embedding of the sitemap-aggregation / Lighthouse-audit script
(`src/script.py`) together with theorems settling the spec claims.

Conventions of the embedding:
* HTTP attempts are modelled by a function `Nat → Attempt` giving the outcome
  of each 1-indexed attempt (a response with a status and body, or a transport
  exception).
* Python exceptions relevant to the analysed code paths are the constructors
  of `PyExn`.  External library calls that may raise are modelled as functions
  returning `Except PyExn`.
* XML documents are modelled by the data the script extracts from them: a
  sitemap document is the list of optional `<loc>` texts (`none` for a `<loc>`
  element whose text is null), a sitemap index is a list of optional
  `(loc, lastmod)` texts.
* The spreadsheet is an ordered list of rows, each row a list of cell strings.
-/

/-- Outcome of one HTTP GET attempt: a response carrying a status code and a
body, or a transport exception raised by the request. -/
inductive Attempt where
  | exn : Attempt
  | resp (status : Nat) (body : String) : Attempt
deriving DecidableEq

/-- True exactly when the attempt produced a response with HTTP status 200. -/
def is200 : Attempt → Bool
  | .resp 200 _ => true
  | _ => false

/-- The response carried by an attempt, if any. -/
def respOf : Attempt → Option (Nat × String)
  | .resp s b => some (s, b)
  | .exn => none

/-- Loop body of `safe_request`: starting at attempt index `a` with `fuel`
attempts remaining, return the first status-200 response (paired with the
number of attempts consumed), or `none` after exhausting the fuel.  Mirrors
the `for attempt in range(1, retries + 1)` loop of `safe_request` in
`src/script.py`: a non-200 status and a raised exception are both retried. -/
def safeRequestGo (att : Nat → Attempt) (a : Nat) : Nat → Option (Nat × String) × Nat
  | 0 => (none, 0)
  | fuel + 1 =>
    if is200 (att a) then (respOf (att a), 1)
    else
      let p := safeRequestGo att (a + 1) fuel
      (p.1, p.2 + 1)

/-- Model of `safe_request(url, retries, ...)`: try up to `retries` attempts,
returning the first 200 response together with the number of attempts made,
and `(none, retries)` when every attempt fails. -/
def safe_request (att : Nat → Attempt) (retries : Nat) : Option (Nat × String) × Nat :=
  safeRequestGo att 1 retries

/-- Attempt schedule of the spec scenario: HTTP 500 on attempts 1 and 2,
HTTP 200 on attempt 3. -/
def retryExample : Nat → Attempt := fun n =>
  if n = 3 then Attempt.resp 200 "ok3" else Attempt.resp 500 "err"

theorem safeRequestGo_spec (att : Nat → Attempt) : ∀ (fuel a : Nat),
    (safeRequestGo att a fuel).2 ≤ fuel ∧
    (∀ s b, (safeRequestGo att a fuel).1 = some (s, b) →
      s = 200 ∧ 1 ≤ (safeRequestGo att a fuel).2 ∧
      att (a + (safeRequestGo att a fuel).2 - 1) = Attempt.resp 200 b ∧
      ∀ j, j + 1 < (safeRequestGo att a fuel).2 → is200 (att (a + j)) = false) ∧
    ((safeRequestGo att a fuel).1 = none →
      (safeRequestGo att a fuel).2 = fuel ∧ ∀ j, j < fuel → is200 (att (a + j)) = false) := by
  intro fuel
  induction fuel with
  | zero =>
    intro a
    refine ⟨Nat.le_refl _, ?_, ?_⟩
    · intro s b h; simp [safeRequestGo] at h
    · intro _; exact ⟨rfl, fun j hj => absurd hj (Nat.not_lt_zero j)⟩
  | succ n ih =>
    intro a
    by_cases h : is200 (att a) = true
    · have hgo : safeRequestGo att a (n + 1) = (respOf (att a), 1) := by
        simp [safeRequestGo, h]
      obtain ⟨b, hb⟩ : ∃ b, att a = Attempt.resp 200 b := by
        cases hatt : att a with
        | exn => rw [hatt] at h; simp [is200] at h
        | resp s b =>
          rw [hatt] at h
          match s, h with
          | 200, _ => exact ⟨b, rfl⟩
      refine ⟨?_, ?_, ?_⟩
      · rw [hgo]; exact Nat.succ_le_succ (Nat.zero_le n)
      · intro s bb hsome
        rw [hgo] at hsome ⊢
        simp only [hb, respOf, Option.some.injEq, Prod.mk.injEq] at hsome
        obtain ⟨hs, hbb⟩ := hsome
        refine ⟨hs.symm, Nat.le_refl _, ?_, ?_⟩
        · simpa [hbb] using hb
        · intro j hj
          simp only at hj
          omega
      · intro hnone
        rw [hgo] at hnone
        simp [hb, respOf] at hnone
    · have hfalse : is200 (att a) = false := by
        cases hv : is200 (att a)
        · rfl
        · exact absurd hv h
      have hgo : safeRequestGo att a (n + 1) =
          ((safeRequestGo att (a + 1) n).1, (safeRequestGo att (a + 1) n).2 + 1) := by
        simp [safeRequestGo, hfalse]
      obtain ⟨ih1, ih2, ih3⟩ := ih (a + 1)
      refine ⟨?_, ?_, ?_⟩
      · rw [hgo]; exact Nat.succ_le_succ ih1
      · intro s b hsome
        rw [hgo] at hsome ⊢
        obtain ⟨hs, hn, hatt, hall⟩ := ih2 s b hsome
        refine ⟨hs, Nat.le_succ_of_le hn, ?_, ?_⟩
        · have : a + 1 + (safeRequestGo att (a + 1) n).2 - 1
              = a + ((safeRequestGo att (a + 1) n).2 + 1) - 1 := by omega
          rw [← this]; exact hatt
        · intro j hj
          match j with
          | 0 => simpa using hfalse
          | j' + 1 =>
            have hj' : j' + 1 < (safeRequestGo att (a + 1) n).2 := by omega
            have := hall j' hj'
            have harith : a + 1 + j' = a + (j' + 1) := by omega
            rw [harith] at this
            exact this
      · intro hnone
        rw [hgo] at hnone ⊢
        obtain ⟨hfuel, hall⟩ := ih3 hnone
        refine ⟨by omega, ?_⟩
        intro j hj
        match j with
        | 0 => simpa using hfalse
        | j' + 1 =>
          have := hall j' (by omega)
          have harith : a + 1 + j' = a + (j' + 1) := by omega
          rw [harith] at this
          exact this

/-- C5: the fetcher makes at most `retries` attempts, succeeds only on HTTP
status 200, returns the response of the first attempt with status 200 and
makes no further attempts afterwards; when every attempt fails (non-200 or
exception) it returns the no-data value `none`; with `retries = 3` and a URL
answering 500, 500, 200 it returns the third response after exactly three
attempts. -/
theorem C5_safe_request_retry (att : Nat → Attempt) (retries : Nat) :
    (safe_request att retries).2 ≤ retries ∧
    (∀ s b, (safe_request att retries).1 = some (s, b) →
      s = 200 ∧ 1 ≤ (safe_request att retries).2 ∧
      att (safe_request att retries).2 = Attempt.resp 200 b ∧
      ∀ j, 1 ≤ j → j < (safe_request att retries).2 → is200 (att j) = false) ∧
    ((∀ j, 1 ≤ j → j ≤ retries → is200 (att j) = false) →
      (safe_request att retries).1 = none) ∧
    ((safe_request att retries).1 = none →
      ∀ j, 1 ≤ j → j ≤ retries → is200 (att j) = false) ∧
    safe_request retryExample 3 = (some (200, "ok3"), 3) := by
  simp only [safe_request]
  obtain ⟨h1, h2, h3⟩ := safeRequestGo_spec att retries 1
  refine ⟨h1, ?_, ?_, ?_, by decide⟩
  · intro s b hsome
    obtain ⟨hs, hn, hatt, hall⟩ := h2 s b hsome
    refine ⟨hs, hn, ?_, ?_⟩
    · have harith : 1 + (safeRequestGo att 1 retries).2 - 1
          = (safeRequestGo att 1 retries).2 := by omega
      rw [harith] at hatt
      exact hatt
    · intro j hj1 hj2
      have := hall (j - 1) (by omega)
      have harith : 1 + (j - 1) = j := by omega
      rw [harith] at this
      exact this
  · intro hallfail
    cases hres : (safeRequestGo att 1 retries).1 with
    | none => rfl
    | some p =>
      obtain ⟨s, b⟩ := p
      obtain ⟨hs, hn, hatt, _⟩ := h2 s b hres
      have h200 : is200 (att (safeRequestGo att 1 retries).2) = true := by
        have h1' : 1 + (safeRequestGo att 1 retries).2 - 1
            = (safeRequestGo att 1 retries).2 := by omega
        rw [h1'] at hatt
        rw [hatt]; rfl
      have := hallfail (safeRequestGo att 1 retries).2 hn h1
      rw [this] at h200
      exact absurd h200 (by simp)
  · intro hnone j hj1 hj2
    obtain ⟨_, hall⟩ := h3 hnone
    have := hall (j - 1) (by omega)
    have harith : 1 + (j - 1) = j := by omega
    rw [harith] at this
    exact this

/-- Witness for C5 at a concrete schedule: three attempts, third returns 200. -/
theorem C5_safe_request_retry_witness :
    safe_request retryExample 3 = (some (200, "ok3"), 3) :=
  (C5_safe_request_retry retryExample 3).2.2.2.2

/-- Python exception classes raised (or caught) on the code paths analysed
here.  `badGzipFile` is `gzip.BadGzipFile`, a subclass of `OSError` in
CPython; `eofError` (`EOFError`) and `zlibError` (`zlib.error`) derive from
`Exception` directly, not from `OSError`. -/
inductive PyExn where
  | osError : PyExn
  | badGzipFile : PyExn
  | eofError : PyExn
  | zlibError : PyExn
  | attributeError : PyExn
deriving DecidableEq

/-- The transparent-decompression step of `fetch_xml_root` in `src/script.py`:
`data = gzip.GzipFile(...).read()` inside `try ... except (OSError,
gzip.BadGzipFile): pass`.  The external gzip decoder is a parameter `gunzip`
that either returns decompressed bytes or raises some `PyExn`.  An `OSError`
or `BadGzipFile` is swallowed, leaving the raw payload; any other exception
class propagates. -/
def decompressStep (gunzip : List Nat → Except PyExn (List Nat)) (data : List Nat) :
    Except PyExn (List Nat) :=
  match gunzip data with
  | Except.ok out => Except.ok out
  | Except.error PyExn.osError => Except.ok data
  | Except.error PyExn.badGzipFile => Except.ok data
  | Except.error e => Except.error e

/-- C6 counterexample: a payload that is not valid gzip data need not leave
the decompression step unchanged.  CPython's gzip module raises `EOFError`
(not an `OSError`) for a truncated stream such as the bare magic bytes
`0x1f 0x8b`; the `except (OSError, gzip.BadGzipFile)` clause does not catch
it, so the exception escapes the step instead of yielding the raw bytes. -/
theorem C6_gzip_counterexample :
    decompressStep (fun _ => Except.error PyExn.eofError) [31, 139]
        = Except.error PyExn.eofError ∧
    decompressStep (fun _ => Except.error PyExn.eofError) [31, 139]
        ≠ Except.ok [31, 139] := by
  constructor
  · rfl
  · intro h
    exact Except.noConfusion h

/-- C6 (amended): for every payload whose decompression fails with an
`OSError` or a `gzip.BadGzipFile` — the classes CPython's gzip raises when
the payload is not actually gzipped — the step returns the raw payload
unchanged and no exception escapes; failures of other exception classes
(e.g. `EOFError` on a truncated gzip stream) are not covered. -/
theorem C6_gzip_fallback (gunzip : List Nat → Except PyExn (List Nat)) (data : List Nat)
    (h : gunzip data = Except.error PyExn.osError ∨
         gunzip data = Except.error PyExn.badGzipFile) :
    decompressStep gunzip data = Except.ok data := by
  rcases h with h | h <;> simp [decompressStep, h]

/-- Witness for the amended C6 at a concrete decoder and payload. -/
theorem C6_gzip_fallback_witness :
    decompressStep (fun _ => Except.error PyExn.badGzipFile) [60, 63, 120]
        = Except.ok [60, 63, 120] :=
  C6_gzip_fallback (fun _ => Except.error PyExn.badGzipFile) [60, 63, 120] (Or.inr rfl)

/-- Whitespace-stripping of Python's `str.strip()` (ASCII whitespace),
char-list based so that it evaluates by kernel reduction. -/
def pyStrip (s : String) : String :=
  String.mk (((s.data.dropWhile Char.isWhitespace).reverse.dropWhile Char.isWhitespace).reverse)

/-- ASCII lowering of Python's `str.lower()`, char-list based. -/
def pyLower (s : String) : String :=
  String.mk (s.data.map Char.toLower)

/-- True when the first list is an initial segment of the second. -/
def leadsChars : List Char → List Char → Bool
  | [], _ => true
  | _ :: _, [] => false
  | a :: as, b :: bs => a == b && leadsChars as bs

/-- True when `needle` occurs contiguously somewhere in `hay`. -/
def occursIn (needle : List Char) : List Char → Bool
  | [] => leadsChars needle []
  | b :: bs => leadsChars needle (b :: bs) || occursIn needle bs

/-- Model of Python's substring test `needle in hay` for strings. -/
def strContains (hay needle : String) : Bool :=
  occursIn needle.data hay.data

/-- Extraction `[el.text.strip() for el in root.xpath(...)]` over the list of
optional `<loc>` texts: a `<loc>` with null text raises `AttributeError`
(`None.strip()`), otherwise every text is whitespace-trimmed in document
order. -/
def stripLocs : List (Option String) → Except PyExn (List String)
  | [] => Except.ok []
  | none :: _ => Except.error PyExn.attributeError
  | some s :: rest =>
    match stripLocs rest with
    | Except.error e => Except.error e
    | Except.ok l => Except.ok (pyStrip s :: l)

/-- Order-preserving deduplication with an accumulator of already-seen keys;
`dedupSeen [] l` is Python's `list(dict.fromkeys(l))`. -/
def dedupSeen (seen : List String) : List String → List String
  | [] => []
  | a :: l => if a ∈ seen then dedupSeen seen l else a :: dedupSeen (a :: seen) l

/-- Model of `list(dict.fromkeys(urls))`: drop every repetition of a value
after its first occurrence. -/
def dedupKeys (l : List String) : List String :=
  dedupSeen [] l

/-- Rendering of the spec's words "deduplicates preserving first occurrence":
keep each element where it first appears and delete its later repeats.  This
is the spec-side definition used to check the source's `dict.fromkeys`
deduplication against the spec sentence. -/
def specDedupKeepFirst : List String → List String
  | [] => []
  | a :: l => a :: (specDedupKeepFirst l).filter (fun x => decide (x ≠ a))

/-- The include filter of `extract_urls_from_xml`: applied only when the
`include` argument is truthy (a non-empty list), keeping URLs containing at
least one of the include substrings. -/
def applyInclude (inc : List String) (urls : List String) : List String :=
  if inc.isEmpty then urls
  else urls.filter (fun u => inc.any (fun i => strContains u i))

/-- The exclude filter of `extract_urls_from_xml`: applied only when the
`exclude` argument is truthy, keeping URLs containing none of the exclude
substrings. -/
def applyExclude (exc : List String) (urls : List String) : List String :=
  if exc.isEmpty then urls
  else urls.filter (fun u => !(exc.any (fun e => strContains u e)))

/-- Model of `extract_urls_from_xml(url, include, exclude)` as a function of
the fetched document: `none` models `fetch_xml_root` returning `None` (the
function then returns `[]`); otherwise the document is the list of optional
`<loc>` texts, which are stripped, filtered by include then exclude, and
deduplicated preserving first occurrence. -/
def extract_urls_from_xml (doc : Option (List (Option String)))
    (inc exc : List String) : Except PyExn (List String) :=
  match doc with
  | none => Except.ok []
  | some locs =>
    match stripLocs locs with
    | Except.error e => Except.error e
    | Except.ok urls => Except.ok (dedupKeys (applyExclude exc (applyInclude inc urls)))

/-- The combined predicate a URL must pass to survive both filters. -/
def passFilters (inc exc : List String) (u : String) : Bool :=
  (inc.isEmpty || inc.any (fun i => strContains u i)) &&
    !(exc.any (fun e => strContains u e))

theorem dedupSeen_sublist (seen : List String) : ∀ l : List String, (dedupSeen seen l).Sublist l := by
  intro l
  induction l generalizing seen with
  | nil => simp [dedupSeen]
  | cons a l ih =>
    by_cases h : a ∈ seen
    · simp only [dedupSeen, if_pos h]
      exact (ih seen).cons a
    · simp only [dedupSeen, if_neg h]
      exact (ih (a :: seen)).cons₂ a

theorem dedupSeen_mem (seen : List String) : ∀ (l : List String) (x : String),
    x ∈ dedupSeen seen l ↔ x ∈ l ∧ x ∉ seen := by
  intro l
  induction l generalizing seen with
  | nil => simp [dedupSeen]
  | cons a l ih =>
    intro x
    by_cases h : a ∈ seen
    · simp only [dedupSeen, if_pos h, ih seen x, List.mem_cons]
      constructor
      · rintro ⟨hx, hns⟩; exact ⟨Or.inr hx, hns⟩
      · rintro ⟨hx | hx, hns⟩
        · exact absurd (hx ▸ h) hns
        · exact ⟨hx, hns⟩
    · rw [dedupSeen, if_neg h]
      simp only [List.mem_cons, ih (a :: seen) x, not_or]
      constructor
      · rintro (rfl | ⟨hx, hne, hns⟩)
        · exact ⟨Or.inl rfl, h⟩
        · exact ⟨Or.inr hx, hns⟩
      · rintro ⟨rfl | hx, hns⟩
        · exact Or.inl rfl
        · by_cases hxa : x = a
          · exact Or.inl hxa
          · exact Or.inr ⟨hx, hxa, hns⟩

theorem dedupSeen_nodup (seen : List String) : ∀ l : List String, (dedupSeen seen l).Nodup := by
  intro l
  induction l generalizing seen with
  | nil => simp [dedupSeen]
  | cons a l ih =>
    by_cases h : a ∈ seen
    · simpa [dedupSeen, if_pos h] using ih seen
    · simp only [dedupSeen, if_neg h, List.nodup_cons]
      refine ⟨?_, ih (a :: seen)⟩
      intro hmem
      exact ((dedupSeen_mem (a :: seen) l a).mp hmem).2 (List.mem_cons_self a seen)

theorem dedupSeen_eq_specDedup (l : List String) : ∀ seen : List String,
    dedupSeen seen l = (specDedupKeepFirst l).filter (fun x => decide (x ∉ seen)) := by
  induction l with
  | nil => intro seen; simp [dedupSeen, specDedupKeepFirst]
  | cons a l ih =>
    intro seen
    by_cases h : a ∈ seen
    · rw [dedupSeen, if_pos h, specDedupKeepFirst, List.filter_cons]
      have ha : (decide (a ∉ seen)) = false := by simp [h]
      rw [ha]
      simp only [Bool.false_eq_true, if_false, List.filter_filter, ih seen]
      apply List.filter_congr
      intro x _
      by_cases h1 : x = a
      · subst h1; simp [h]
      · simp [h1]
    · rw [dedupSeen, if_neg h, specDedupKeepFirst, List.filter_cons]
      have ha : (decide (a ∉ seen)) = true := by simp [h]
      rw [ha]
      simp only [if_true, List.filter_filter, ih (a :: seen)]
      congr 1
      apply List.filter_congr
      intro x _
      by_cases h1 : x = a <;> by_cases h2 : x ∈ seen <;>
        simp [h1, h2, List.mem_cons]

theorem dedupKeys_eq_specDedup (l : List String) : dedupKeys l = specDedupKeepFirst l := by
  rw [dedupKeys, dedupSeen_eq_specDedup l []]
  rw [show (fun x : String => decide (x ∉ ([] : List String))) = fun _ => true by
    funext x; simp]
  exact List.filter_true _

theorem applyFilters_eq (inc exc : List String) (urls : List String) :
    applyExclude exc (applyInclude inc urls) = urls.filter (passFilters inc exc) := by
  by_cases hinc : inc.isEmpty
  · obtain rfl : inc = [] := List.isEmpty_iff.mp hinc
    by_cases hexc : exc.isEmpty
    · obtain rfl : exc = [] := List.isEmpty_iff.mp hexc
      have hp : passFilters ([] : List String) [] = fun _ => true := by
        funext u; simp [passFilters]
      simp [applyInclude, applyExclude, hp, List.filter_true]
    · have hexc' : exc.isEmpty = false := by
        cases hv : exc.isEmpty
        · rfl
        · exact absurd hv hexc
      have hp : passFilters ([] : List String) exc
          = fun u => !(exc.any (fun e => strContains u e)) := by
        funext u; simp [passFilters]
      simp [applyInclude, applyExclude, hexc', hp]
  · have hinc' : inc.isEmpty = false := by
      cases hv : inc.isEmpty
      · rfl
      · exact absurd hv hinc
    by_cases hexc : exc.isEmpty
    · obtain rfl : exc = [] := List.isEmpty_iff.mp hexc
      have hp : passFilters inc []
          = fun u => inc.any (fun i => strContains u i) := by
        funext u; simp [passFilters, hinc']
      simp [applyInclude, applyExclude, hinc', hp]
    · have hexc' : exc.isEmpty = false := by
        cases hv : exc.isEmpty
        · rfl
        · exact absurd hv hexc
      simp only [applyInclude, applyExclude, hinc', hexc', Bool.false_eq_true,
        if_false, List.filter_filter]
      apply List.filter_congr
      intro x _
      simp [passFilters, hinc']
      exact Bool.and_comm _ _

theorem stripLocs_all_text (texts : List String) :
    stripLocs (texts.map some) = Except.ok (texts.map pyStrip) := by
  induction texts with
  | nil => rfl
  | cons t ts ih => simp [stripLocs, ih]

/-- C3: on every sitemap-XML document (list of `<loc>` texts in document
order) and every include/exclude filter pair, the parser returns a
duplicate-free sequence that is a subsequence of the whitespace-trimmed
`<loc>` texts, containing exactly the trimmed URLs that pass the include
filter (when given) and the exclude filter (when given), and equal to the
first-occurrence deduplication of the filtered trimmed texts. -/
theorem C3_extract_urls_spec (texts inc exc : List String) :
    ∃ out, extract_urls_from_xml (some (texts.map some)) inc exc = Except.ok out ∧
      out.Nodup ∧
      out.Sublist (texts.map pyStrip) ∧
      (∀ u, u ∈ out ↔ u ∈ texts.map pyStrip ∧
        (inc.isEmpty = true ∨ ∃ i ∈ inc, strContains u i = true) ∧
        (∀ e ∈ exc, strContains u e = false)) ∧
      out = specDedupKeepFirst ((texts.map pyStrip).filter (passFilters inc exc)) := by
  refine ⟨dedupKeys (applyExclude exc (applyInclude inc (texts.map pyStrip))), ?_, ?_, ?_, ?_, ?_⟩
  · simp [extract_urls_from_xml, stripLocs_all_text]
  · exact dedupSeen_nodup [] _
  · exact ((dedupSeen_sublist [] _).trans
      (by rw [applyFilters_eq]; exact List.filter_sublist _))
  · intro u
    rw [show dedupKeys (applyExclude exc (applyInclude inc (texts.map pyStrip)))
        = dedupSeen [] (applyExclude exc (applyInclude inc (texts.map pyStrip))) from rfl]
    rw [dedupSeen_mem, applyFilters_eq, List.mem_filter]
    simp only [List.not_mem_nil, not_false_eq_true, and_true, passFilters,
      Bool.and_eq_true, Bool.or_eq_true, List.any_eq_true, Bool.not_eq_true',
      List.any_eq_false, Bool.not_eq_true]
  · rw [applyFilters_eq, dedupKeys_eq_specDedup]

/-- Witness for C3 at a concrete document with a repeated URL and no
filters: the parser output is the trimmed, deduplicated list and it is
duplicate-free. -/
theorem C3_extract_urls_spec_witness :
    extract_urls_from_xml (some (([" a ", "a", "b"]).map some)) [] []
        = Except.ok ["a", "b"] ∧ (["a", "b"] : List String).Nodup := by
  obtain ⟨out, h1, h2, _⟩ := C3_extract_urls_spec [" a ", "a", "b"] [] []
  have he : extract_urls_from_xml (some (([" a ", "a", "b"]).map some)) [] []
      = Except.ok ["a", "b"] := rfl
  rw [he] at h1
  have hout : out = ["a", "b"] := (Except.ok.inj h1).symm
  subst hout
  exact ⟨he, h2⟩

/-- The `(loc.text.strip(), mod.text.strip())` pairs collected by
`get_latest_sitemap`: only entries whose `<loc>` and `<lastmod>` are both
present survive. -/
def completePairs (entries : List (Option String × Option String)) : List (String × String) :=
  entries.filterMap (fun p =>
    match p.1, p.2 with
    | some l, some m => some (pyStrip l, pyStrip m)
    | _, _ => none)

/-- Executable lexicographic less-or-equal on character lists. -/
def lexLeB : List Char → List Char → Bool
  | [], _ => true
  | _ :: _, [] => false
  | a :: as, b :: bs => if a < b then true else if b < a then false else lexLeB as bs

/-- Executable lexicographic less-or-equal on strings (Python's `<=` on
`str`, used by `sorted` on the lastmod keys). -/
def strLeB (s t : String) : Bool := lexLeB s.data t.data

theorem lexLeB_iff_not_lex : ∀ as bs : List Char,
    lexLeB as bs = true ↔ ¬ List.Lex (· < ·) bs as := by
  intro as
  induction as with
  | nil =>
    intro bs
    simp only [lexLeB]
    constructor
    · intro _ h; cases h
    · intro _; trivial
  | cons a as ih =>
    intro bs
    cases bs with
    | nil =>
      simp only [lexLeB]
      constructor
      · intro h; cases h
      · intro h; exact absurd List.Lex.nil h
    | cons b bs =>
      by_cases hab : a < b
      · have hba : ¬ b < a := lt_asymm hab
        simp only [lexLeB, if_pos hab]
        constructor
        · intro _ h
          cases h with
          | cons h' => exact lt_irrefl a hab
          | rel h' => exact hba h'
        · intro _; trivial
      · by_cases hba : b < a
        · simp only [lexLeB, if_neg hab, if_pos hba]
          constructor
          · intro h; cases h
          · intro h; exact absurd (List.Lex.rel hba) h
        · obtain rfl : a = b := le_antisymm (le_of_not_lt hba) (le_of_not_lt hab)
          simp only [lexLeB, if_neg hab, if_neg hba]
          rw [ih bs]
          constructor
          · intro h hlt
            cases hlt with
            | cons h' => exact h h'
            | rel h' => exact lt_irrefl a h'
          · intro h hlt
            exact h (List.Lex.cons hlt)

theorem strLeB_iff_le (s t : String) : strLeB s t = true ↔ s ≤ t := by
  have h1 : s ≤ t ↔ ¬ t < s := Iff.rfl
  rw [h1, String.lt_iff_toList_lt]
  exact lexLeB_iff_not_lex s.data t.data

/-- Sort key of `sorted(sitemaps, key=lambda x: x[1], reverse=True)`: `a`
comes before `b` when `a`'s lastmod string is lexicographically at least
`b`'s. -/
def bySecondDesc (a b : String × String) : Prop := strLeB b.2 a.2 = true

instance : DecidableRel bySecondDesc :=
  fun a b => inferInstanceAs (Decidable (strLeB b.2 a.2 = true))

instance : IsTotal (String × String) bySecondDesc :=
  ⟨fun a b => by
    rcases le_total b.2 a.2 with h | h
    · exact Or.inl ((strLeB_iff_le _ _).mpr h)
    · exact Or.inr ((strLeB_iff_le _ _).mpr h)⟩

instance : IsTrans (String × String) bySecondDesc :=
  ⟨fun a b c hab hbc => by
    have h1 := (strLeB_iff_le _ _).mp hab
    have h2 := (strLeB_iff_le _ _).mp hbc
    exact (strLeB_iff_le _ _).mpr (le_trans h2 h1)⟩

/-- Model of `get_latest_sitemap(index_url)` as a function of the fetched
index document: `none` models a failed fetch; otherwise collect the complete
`(loc, lastmod)` pairs, return `None` when there are none, else the loc of
the first pair after a stable sort by lastmod descending. -/
def get_latest_sitemap (doc : Option (List (Option String × Option String))) : Option String :=
  match doc with
  | none => none
  | some entries =>
    match List.insertionSort bySecondDesc (completePairs entries) with
    | [] => none
    | best :: _ => some best.1

/-- C4: for every sitemap-index document with at least one entry having both
a loc and a lastmod, the resolver returns the loc of a complete entry whose
lastmod string is lexicographically maximal among all complete entries; on
the entries `[(A, 2024-01-01), (B, 2024-03-05), (C, 2023-12-31)]` it returns
B's loc. -/
theorem C4_latest_sitemap_max (entries : List (Option String × Option String))
    (h : completePairs entries ≠ []) :
    (∃ l m, get_latest_sitemap (some entries) = some l ∧
      (l, m) ∈ completePairs entries ∧
      ∀ p ∈ completePairs entries, p.2 ≤ m) ∧
    get_latest_sitemap (some [(some "A", some "2024-01-01"), (some "B", some "2024-03-05"),
      (some "C", some "2023-12-31")]) = some "B" := by
  constructor
  · have hperm := List.perm_insertionSort bySecondDesc (completePairs entries)
    have hsorted := List.sorted_insertionSort bySecondDesc (completePairs entries)
    cases hs : List.insertionSort bySecondDesc (completePairs entries) with
    | nil =>
      rw [hs] at hperm
      exact absurd hperm.symm.eq_nil h
    | cons best tail =>
      refine ⟨best.1, best.2, ?_, ?_, ?_⟩
      · simp [get_latest_sitemap, hs]
      · have : best ∈ List.insertionSort bySecondDesc (completePairs entries) := by
          rw [hs]; exact List.mem_cons_self _ _
        exact hperm.subset this
      · intro p hp
        have hp' : p ∈ List.insertionSort bySecondDesc (completePairs entries) :=
          hperm.symm.subset hp
        rw [hs] at hp'
        rcases List.mem_cons.mp hp' with rfl | hp''
        · exact le_refl _
        · rw [hs] at hsorted
          exact (strLeB_iff_le _ _).mp ((List.sorted_cons.mp hsorted).1 p hp'')
  · decide

/-- Witness for C4 at the example index document, discharging the
nonemptiness hypothesis. -/
theorem C4_latest_sitemap_max_witness :
    completePairs [(some "A", some "2024-01-01"), (some "B", some "2024-03-05"),
        (some "C", some "2023-12-31")] ≠ [] ∧
    get_latest_sitemap (some [(some "A", some "2024-01-01"), (some "B", some "2024-03-05"),
        (some "C", some "2023-12-31")]) = some "B" :=
  ⟨by decide,
    (C4_latest_sitemap_max [(some "A", some "2024-01-01"), (some "B", some "2024-03-05"),
      (some "C", some "2023-12-31")] (by decide)).2⟩

/-- A 9-cell blank group, `[""] * 9` in `src/script.py`. -/
def blankGroup : List String := List.replicate 9 ""

/-- A populated 9-cell group, `[today, content_type, url] + [""] * 6`. -/
def urlGroup (date ctype url : String) : List String :=
  [date, ctype, url] ++ List.replicate 6 ""

/-- The seen-check applied each time a URL is offered to the current row:
mirrors `if url not in used_urls: row.extend([today, ct, url] + [""]*6);
used_urls.add(url); any_url = True else: row.extend([""]*9)`.  Returns the
9-cell group tagged with the `any_url` contribution, and the updated
seen-set. -/
def offerUrl (date ctype url : String) (used : List String) :
    (List String × Bool) × List String :=
  if url ∈ used then ((blankGroup, false), used)
  else ((urlGroup date ctype url, true), url :: used)

/-- One publisher-or-gallery slot of a row at position `i`: if `i` is in
range offer `urls[i]`, else if the sequence is non-empty re-offer its last
element (`urls[-1]`), else emit a blank group — exactly the
`if i < len(urls) ... else: if len(urls) > 0 ... else` branch of the
row-building loop in `src/script.py`. -/
def offerGroup (date ctype : String) (urls : List String) (i : Nat) (used : List String) :
    (List String × Bool) × List String :=
  if i < urls.length then offerUrl date ctype (urls.getD i "") used
  else if 0 < urls.length then offerUrl date ctype (urls.getLast?.getD "") used
  else ((blankGroup, false), used)

/-- The per-row source sequences in loop order: one `(content_type, urls)`
slot per company (choosing `nota_list` or `video_list` by the current
content-type) followed by one `("img", galleries)` slot per gallery key. -/
def rowSources (ctype : String) (comps : List (String × List String × List String))
    (gals : List (String × List String)) : List (String × List String) :=
  comps.map (fun c => (ctype, if ctype = "nota" then c.2.1 else c.2.2)) ++
    gals.map (fun g => ("img", g.2))

/-- Build the groups of one row by walking the sources in order, threading
the seen-set. -/
def buildGroups (date : String) (i : Nat) :
    List (String × List String) → List String → List (List String × Bool) × List String
  | [], used => ([], used)
  | s :: rest, used =>
    let p := offerGroup date s.1 s.2 i used
    let q := buildGroups date i rest p.2
    (p.1 :: q.1, q.2)

/-- Build `count` successive rows starting at position `i`, threading the
seen-set; mirrors `for i in range(max_rows)`. -/
def buildRowsAux (date : String) (srcs : List (String × List String)) :
    Nat → Nat → List String → List (List (List String × Bool)) × List String
  | 0, _, used => ([], used)
  | count + 1, i, used =>
    let p := buildGroups date i srcs used
    let q := buildRowsAux date srcs count (i + 1) p.2
    (p.1 :: q.1, q.2)

/-- The whole row-building phase of `src/script.py`: for each content-type in
`["nota", "video"]` build `maxRows` rows over the company and gallery
sources, with `used_urls` starting empty and persisting across the entire
run. -/
def buildAll (date : String) (comps : List (String × List String × List String))
    (gals : List (String × List String)) (maxRows : Nat) :
    List (List (List String × Bool)) × List String :=
  let p := buildRowsAux date (rowSources "nota" comps gals) maxRows 0 []
  let q := buildRowsAux date (rowSources "video" comps gals) maxRows 0 p.2
  (p.1 ++ q.1, q.2)

/-- The URL emitted by a group, when the group was populated. -/
def emittedOfGroup (g : List String × Bool) : Option String :=
  if g.2 then some (g.1.getD 2 "") else none

/-- URLs of the populated groups of one row, in order. -/
def emittedOfGroups (gs : List (List String × Bool)) : List String :=
  gs.filterMap emittedOfGroup

/-- URLs of the populated groups of a list of rows, in order. -/
def emittedOfRows (rows : List (List (List String × Bool))) : List String :=
  (rows.map emittedOfGroups).flatten

/-- The `any_url` flag of an assembled row: the row is appended to the sheet
exactly when this is true. -/
def rowAppended (row : List (List String × Bool)) : Bool :=
  row.any (fun g => g.2)

/-- The flat cell list of an assembled row, as passed to `append_row`. -/
def rowCells (row : List (List String × Bool)) : List String :=
  (row.map (fun g => g.1)).flatten

/-- True when every cell of the flat row is the empty string. -/
def rowIsAllBlank (cells : List String) : Bool :=
  cells.all (fun c => c == "")

/-- Invariant carried by every seen-set-threading step: the seen-set only
grows, the emitted URLs are distinct, and each emitted URL was unseen before
the step and is seen after it. -/
def GoodStep (emitted : List String) (used used' : List String) : Prop :=
  (∀ x ∈ used, x ∈ used') ∧ emitted.Nodup ∧
    ∀ u ∈ emitted, u ∉ used ∧ u ∈ used'

theorem goodStep_nil (used : List String) : GoodStep [] used used :=
  ⟨fun _ hx => hx, List.nodup_nil, fun _ hu => absurd hu (List.not_mem_nil _)⟩

theorem goodStep_append {e1 e2 used used1 used2 : List String}
    (h1 : GoodStep e1 used used1) (h2 : GoodStep e2 used1 used2) :
    GoodStep (e1 ++ e2) used used2 := by
  obtain ⟨hs1, hn1, hm1⟩ := h1
  obtain ⟨hs2, hn2, hm2⟩ := h2
  refine ⟨fun x hx => hs2 x (hs1 x hx), ?_, ?_⟩
  · rw [List.nodup_append]
    refine ⟨hn1, hn2, ?_⟩
    intro u hu1 hu2
    exact (hm2 u hu2).1 ((hm1 u hu1).2)
  · intro u hu
    rcases List.mem_append.mp hu with h | h
    · exact ⟨(hm1 u h).1, hs2 u (hm1 u h).2⟩
    · exact ⟨fun hin => (hm2 u h).1 (hs1 u hin), (hm2 u h).2⟩

theorem goodStep_offerUrl (date ctype url : String) (used : List String) :
    GoodStep (emittedOfGroups [(offerUrl date ctype url used).1])
      used (offerUrl date ctype url used).2 := by
  by_cases h : url ∈ used
  · simp only [offerUrl, if_pos h]
    have he : emittedOfGroups [(blankGroup, false)] = [] := rfl
    rw [he]
    exact goodStep_nil used
  · simp only [offerUrl, if_neg h]
    have he : emittedOfGroups [(urlGroup date ctype url, true)] = [url] := rfl
    rw [he]
    refine ⟨fun x hx => List.mem_cons_of_mem url hx, List.nodup_singleton url, ?_⟩
    intro u hu
    rw [List.mem_singleton] at hu
    subst hu
    exact ⟨h, List.mem_cons_self u used⟩

theorem goodStep_offerGroup (date ctype : String) (urls : List String) (i : Nat)
    (used : List String) :
    GoodStep (emittedOfGroups [(offerGroup date ctype urls i used).1])
      used (offerGroup date ctype urls i used).2 := by
  rw [offerGroup]
  by_cases h1 : i < urls.length
  · rw [if_pos h1]; exact goodStep_offerUrl date ctype _ used
  · rw [if_neg h1]
    by_cases h2 : 0 < urls.length
    · rw [if_pos h2]; exact goodStep_offerUrl date ctype _ used
    · rw [if_neg h2]
      have he : emittedOfGroups [(blankGroup, false)] = [] := rfl
      rw [he]
      exact goodStep_nil used

theorem emittedOfGroups_cons (g : List String × Bool) (gs : List (List String × Bool)) :
    emittedOfGroups (g :: gs) = emittedOfGroups [g] ++ emittedOfGroups gs := by
  simp only [emittedOfGroups, List.filterMap_cons]
  cases emittedOfGroup g <;> simp

theorem emittedOfRows_cons (r : List (List String × Bool))
    (rows : List (List (List String × Bool))) :
    emittedOfRows (r :: rows) = emittedOfGroups r ++ emittedOfRows rows := by
  simp [emittedOfRows]

theorem emittedOfRows_append (r1 r2 : List (List (List String × Bool))) :
    emittedOfRows (r1 ++ r2) = emittedOfRows r1 ++ emittedOfRows r2 := by
  simp [emittedOfRows]

theorem goodStep_buildGroups (date : String) (i : Nat) :
    ∀ (srcs : List (String × List String)) (used : List String),
    GoodStep (emittedOfGroups (buildGroups date i srcs used).1) used
      (buildGroups date i srcs used).2 := by
  intro srcs
  induction srcs with
  | nil => intro used; exact goodStep_nil used
  | cons s rest ih =>
    intro used
    show GoodStep (emittedOfGroups ((offerGroup date s.1 s.2 i used).1 ::
        (buildGroups date i rest (offerGroup date s.1 s.2 i used).2).1)) used
      (buildGroups date i rest (offerGroup date s.1 s.2 i used).2).2
    rw [emittedOfGroups_cons]
    exact goodStep_append (goodStep_offerGroup date s.1 s.2 i used)
      (ih (offerGroup date s.1 s.2 i used).2)

theorem goodStep_buildRowsAux (date : String) (srcs : List (String × List String)) :
    ∀ (count i : Nat) (used : List String),
    GoodStep (emittedOfRows (buildRowsAux date srcs count i used).1) used
      (buildRowsAux date srcs count i used).2 := by
  intro count
  induction count with
  | zero => intro i used; exact goodStep_nil used
  | succ n ih =>
    intro i used
    show GoodStep (emittedOfRows ((buildGroups date i srcs used).1 ::
        (buildRowsAux date srcs n (i + 1) (buildGroups date i srcs used).2).1)) used
      (buildRowsAux date srcs n (i + 1) (buildGroups date i srcs used).2).2
    rw [emittedOfRows_cons]
    exact goodStep_append (goodStep_buildGroups date i srcs used)
      (ih (i + 1) (buildGroups date i srcs used).2)

/-- C1: over a whole run of the row-building phase — both content-types plus
the gallery groups, all row positions — every URL is offered through the
seen-set check before being placed, so the list of URLs over all populated
groups of all assembled rows contains no duplicates. -/
theorem C1_no_duplicate_emission (date : String)
    (comps : List (String × List String × List String))
    (gals : List (String × List String)) (maxRows : Nat) :
    (emittedOfRows (buildAll date comps gals maxRows).1).Nodup := by
  have h1 := goodStep_buildRowsAux date (rowSources "nota" comps gals) maxRows 0 []
  have h2 := goodStep_buildRowsAux date (rowSources "video" comps gals) maxRows 0
    (buildRowsAux date (rowSources "nota" comps gals) maxRows 0 []).2
  have hall := goodStep_append h1 h2
  show (emittedOfRows ((buildRowsAux date (rowSources "nota" comps gals) maxRows 0 []).1 ++
    (buildRowsAux date (rowSources "video" comps gals) maxRows 0
      (buildRowsAux date (rowSources "nota" comps gals) maxRows 0 []).2).1)).Nodup
  rw [emittedOfRows_append]
  exact hall.2.1

/-- Witness for C1 at a concrete registry where the same URL is offered by
two companies, in both content-types, and as a gallery URL. -/
theorem C1_no_duplicate_emission_witness :
    (emittedOfRows (buildAll "2024-01-01"
      [("X", ["u1", "u2"], ["u1"]), ("Y", ["u1"], [])]
      [("img.X", ["u1", "u2"])] 3).1).Nodup :=
  C1_no_duplicate_emission "2024-01-01"
    [("X", ["u1", "u2"], ["u1"]), ("Y", ["u1"], [])] [("img.X", ["u1", "u2"])] 3

theorem offerUrl_shape (date ctype url : String) (used : List String) :
    (offerUrl date ctype url used).1 = (urlGroup date ctype url, true) ∨
    (offerUrl date ctype url used).1 = (blankGroup, false) := by
  by_cases h : url ∈ used <;> simp [offerUrl, h]

theorem offerGroup_shape (date ctype : String) (urls : List String) (i : Nat)
    (used : List String) :
    (∃ u, (offerGroup date ctype urls i used).1 = (urlGroup date ctype u, true)) ∨
    (offerGroup date ctype urls i used).1 = (blankGroup, false) := by
  rw [offerGroup]
  by_cases h1 : i < urls.length
  · rw [if_pos h1]
    rcases offerUrl_shape date ctype (urls.getD i "") used with h | h
    · exact Or.inl ⟨_, h⟩
    · exact Or.inr h
  · rw [if_neg h1]
    by_cases h2 : 0 < urls.length
    · rw [if_pos h2]
      rcases offerUrl_shape date ctype (urls.getLast?.getD "") used with h | h
      · exact Or.inl ⟨_, h⟩
      · exact Or.inr h
    · rw [if_neg h2]
      exact Or.inr rfl

theorem buildGroups_shape (date : String) (i : Nat) :
    ∀ (srcs : List (String × List String)) (used : List String),
    ∀ g ∈ (buildGroups date i srcs used).1,
      (∃ ct u, g = (urlGroup date ct u, true)) ∨ g = (blankGroup, false) := by
  intro srcs
  induction srcs with
  | nil => intro used g hg; exact absurd hg (List.not_mem_nil g)
  | cons s rest ih =>
    intro used g hg
    have hg' : g = (offerGroup date s.1 s.2 i used).1 ∨
        g ∈ (buildGroups date i rest (offerGroup date s.1 s.2 i used).2).1 :=
      List.mem_cons.mp hg
    rcases hg' with rfl | hmem
    · rcases offerGroup_shape date s.1 s.2 i used with ⟨u, hu⟩ | hb
      · exact Or.inl ⟨s.1, u, hu⟩
      · exact Or.inr hb
    · exact ih (offerGroup date s.1 s.2 i used).2 g hmem

theorem buildRowsAux_shape (date : String) (srcs : List (String × List String)) :
    ∀ (count i : Nat) (used : List String),
    ∀ row ∈ (buildRowsAux date srcs count i used).1, ∀ g ∈ row,
      (∃ ct u, g = (urlGroup date ct u, true)) ∨ g = (blankGroup, false) := by
  intro count
  induction count with
  | zero => intro i used row hrow; exact absurd hrow (List.not_mem_nil row)
  | succ n ih =>
    intro i used row hrow
    have hrow' : row = (buildGroups date i srcs used).1 ∨
        row ∈ (buildRowsAux date srcs n (i + 1) (buildGroups date i srcs used).2).1 :=
      List.mem_cons.mp hrow
    rcases hrow' with rfl | hmem
    · exact buildGroups_shape date i srcs used
    · exact ih (i + 1) (buildGroups date i srcs used).2 row hmem

theorem buildAll_shape (date : String) (comps : List (String × List String × List String))
    (gals : List (String × List String)) (maxRows : Nat) :
    ∀ row ∈ (buildAll date comps gals maxRows).1, ∀ g ∈ row,
      (∃ ct u, g = (urlGroup date ct u, true)) ∨ g = (blankGroup, false) := by
  intro row hrow
  have hrow' : row ∈ (buildRowsAux date (rowSources "nota" comps gals) maxRows 0 []).1 ∨
      row ∈ (buildRowsAux date (rowSources "video" comps gals) maxRows 0
        (buildRowsAux date (rowSources "nota" comps gals) maxRows 0 []).2).1 := by
    have : row ∈ (buildRowsAux date (rowSources "nota" comps gals) maxRows 0 []).1 ++
        (buildRowsAux date (rowSources "video" comps gals) maxRows 0
          (buildRowsAux date (rowSources "nota" comps gals) maxRows 0 []).2).1 := hrow
    exact List.mem_append.mp this
  rcases hrow' with h | h
  · exact buildRowsAux_shape date (rowSources "nota" comps gals) maxRows 0 [] row h
  · exact buildRowsAux_shape date (rowSources "video" comps gals) maxRows 0 _ row h

/-- C2: a row whose groups are all blank is never persisted — the
`append_row` call is guarded by `any_url`, which is set exactly when some
group of the row was populated, and (the run date being non-empty) a
populated group is never blank: for every assembled row, the append guard
holds iff the flat row is not all-blank. -/
theorem C2_all_blank_not_persisted (date : String)
    (comps : List (String × List String × List String))
    (gals : List (String × List String)) (maxRows : Nat) (hd : date ≠ "") :
    ∀ row ∈ (buildAll date comps gals maxRows).1,
      (rowAppended row = true ↔ rowIsAllBlank (rowCells row) = false) := by
  intro row hrow
  constructor
  · intro happ
    obtain ⟨g, hg, hflag⟩ : ∃ g ∈ row, g.2 = true := by
      simpa [rowAppended, List.any_eq_true] using happ
    rcases buildAll_shape date comps gals maxRows row hrow g hg with ⟨ct, u, rfl⟩ | hb
    · have hdate : date ∈ rowCells row := by
        rw [rowCells, List.mem_flatten]
        refine ⟨urlGroup date ct u, ?_, ?_⟩
        · exact List.mem_map.mpr ⟨(urlGroup date ct u, true), hg, rfl⟩
        · exact List.mem_cons_self _ _
      cases hb : rowIsAllBlank (rowCells row)
      · rfl
      · have := List.all_eq_true.mp hb date hdate
        rw [beq_iff_eq] at this
        exact absurd this hd
    · rw [hb] at hflag
      exact absurd hflag (by simp)
  · intro hblank
    cases happ : rowAppended row
    · exfalso
      have hforall : ∀ g ∈ row, g.2 = false := by
        intro g hg
        cases hflag : g.2
        · rfl
        · exfalso
          have : row.any (fun g => g.2) = true := List.any_eq_true.mpr ⟨g, hg, hflag⟩
          rw [rowAppended] at happ
          rw [happ] at this
          exact absurd this (by simp)
      have hall : rowIsAllBlank (rowCells row) = true := by
        rw [rowIsAllBlank, List.all_eq_true]
        intro c hc
        rw [rowCells, List.mem_flatten] at hc
        obtain ⟨l, hl, hcl⟩ := hc
        obtain ⟨g, hg, rfl⟩ := List.mem_map.mp hl
        rcases buildAll_shape date comps gals maxRows row hrow g hg with ⟨ct, u, rfl⟩ | hb
        · exact absurd (hforall _ hg) (by simp)
        · rw [hb] at hcl
          have : c = "" := List.eq_of_mem_replicate hcl
          simp [this]
      rw [hall] at hblank
      exact absurd hblank (by simp)
    · rfl

/-- Witness for C2: a run over one company with a single article URL and
`maxRows = 1`; the article row is populated and appended, and indeed its
flat cells are not all blank. -/
theorem C2_all_blank_not_persisted_witness :
    rowAppended [(urlGroup "2024-01-01" "nota" "u1", true)] = true ↔
      rowIsAllBlank (rowCells [(urlGroup "2024-01-01" "nota" "u1", true)]) = false :=
  C2_all_blank_not_persisted "2024-01-01" [("X", ["u1"], [])] [] 1 (by decide)
    [(urlGroup "2024-01-01" "nota" "u1", true)] (by decide)

/-- C8: the out-of-range policy of the row builder is the last-element
variant, uniformly: at any position at or past the end of a non-empty
sequence the sequence's last element is re-offered subject to the seen-check
(blank group when already seen), and an empty sequence yields a blank group;
in the concrete scenario — one publisher with article list `[u1, u2]`,
`max_rows = 3` — the three article rows contain `u1`, `u2`, and a blank
group (u2 being already seen). -/
theorem C8_out_of_range_last_element :
    (∀ (date ctype : String) (urls : List String) (i : Nat) (used : List String),
      urls.length ≤ i →
      offerGroup date ctype urls i used =
        if urls.isEmpty then ((blankGroup, false), used)
        else if urls.getLast?.getD "" ∈ used then ((blankGroup, false), used)
        else ((urlGroup date ctype (urls.getLast?.getD ""), true),
          urls.getLast?.getD "" :: used)) ∧
    (buildAll "2024-01-01" [("X", ["u1", "u2"], ["v1"])] [] 3).1.take 3 =
      [[(urlGroup "2024-01-01" "nota" "u1", true)],
       [(urlGroup "2024-01-01" "nota" "u2", true)],
       [(blankGroup, false)]] := by
  constructor
  · intro date ctype urls i used h
    rw [offerGroup, if_neg (Nat.not_lt.mpr h)]
    by_cases he : urls = []
    · subst he
      simp [List.isEmpty_nil]
    · have hlen : 0 < urls.length := List.length_pos.mpr he
      have hie : urls.isEmpty = false := by
        cases hv : urls.isEmpty
        · rfl
        · exact absurd (List.isEmpty_iff.mp hv) he
      rw [if_pos hlen, hie]
      simp only [Bool.false_eq_true, if_false]
      rw [offerUrl]
  · decide

/-- Witness for C8's general part: position 5 in a one-element unseen
sequence re-offers the last element. -/
theorem C8_out_of_range_last_element_witness :
    offerGroup "d" "nota" ["a"] 5 [] = ((urlGroup "d" "nota" "a", true), ["a"]) := by
  rw [C8_out_of_range_last_element.1 "d" "nota" ["a"] 5 [] (by decide)]
  decide

/-- Model of `get_tvazteca(nota_url, video_url)` as a function of the two
fetched documents: `extract_urls_from_xml(nota_url, exclude=["video"])` and
`extract_urls_from_xml(video_url)`, evaluated in order with any raised
exception propagating — there is no try/except in the adapter body. -/
def get_tvazteca (notaDoc videoDoc : Option (List (Option String))) :
    Except PyExn (List String × List String) :=
  match extract_urls_from_xml notaDoc [] ["video"] with
  | Except.error e => Except.error e
  | Except.ok nota =>
    match extract_urls_from_xml videoDoc [] [] with
    | Except.error e => Except.error e
    | Except.ok video => Except.ok (nota, video)

/-- Construction of the module-level `companies` dict of `src/script.py`:
every adapter is called while building the dict literal, with no surrounding
try/except, so the first adapter that raises aborts the whole construction. -/
def buildRegistry :
    List (String × Except PyExn (List String × List String)) →
    Except PyExn (List (String × (List String × List String)))
  | [] => Except.ok []
  | e :: rest =>
    match e.2 with
    | Except.error err => Except.error err
    | Except.ok v =>
      match buildRegistry rest with
      | Except.error err => Except.error err
      | Except.ok vs => Except.ok ((e.1, v) :: vs)

/-- Construction of `gallery_urls_map`: unlike `companies`, each gallery
extraction is wrapped in `try ... except`, an exception being replaced by an
empty list for that key (`gallery_urls_map[key] = []`). -/
def buildGalleryMap :
    List (String × Except PyExn (List String × List String)) →
    List (String × List String)
  | [] => []
  | e :: rest =>
    (e.1, match e.2 with
          | Except.ok p => p.2
          | Except.error _ => []) :: buildGalleryMap rest

/-- C7 counterexample: an extraction failure inside a company adapter is not
caught at the adapter boundary and aborts the whole registry construction.
The video sitemap document `[some "u", none]` has a second `<loc>` element
with null text, so `el.text.strip()` raises `AttributeError` inside
`extract_urls_from_xml`; `get_tvazteca` propagates it, and building a
registry containing that adapter (followed by a healthy publisher) yields the
exception instead of a registry with empty sequences. -/
theorem C7_registry_counterexample :
    get_tvazteca (some [some "a"]) (some [some "u", none])
        = Except.error PyExn.attributeError ∧
    buildRegistry [("Azteca 7", get_tvazteca (some [some "a"]) (some [some "u", none])),
        ("Terra", Except.ok (["b"], []))]
      = Except.error PyExn.attributeError := by
  constructor
  · rfl
  · rfl

/-- C7 (amended): total fetch failure does degrade to empty sequences — a
company adapter receiving no document returns `([], [])` rather than
raising — and gallery extraction failures are caught per key, the gallery
map always being built with an empty list for each failing source; but an
exception raised while extracting a company's URLs (e.g. a null `<loc>`
text) is not caught at the adapter boundary and aborts the registry
construction. -/
theorem C7_failure_degradation (inc exc : List String)
    (gl : List (String × Except PyExn (List String × List String))) :
    extract_urls_from_xml none inc exc = Except.ok [] ∧
    get_tvazteca none none = Except.ok ([], []) ∧
    (buildGalleryMap gl).map (fun e => e.1) = gl.map (fun e => e.1) ∧
    (∀ k err, (k, Except.error err) ∈ gl → (k, ([] : List String)) ∈ buildGalleryMap gl) := by
  refine ⟨rfl, rfl, ?_, ?_⟩
  · induction gl with
    | nil => rfl
    | cons e rest ih => simp [buildGalleryMap, ih]
  · intro k err hmem
    induction gl with
    | nil => exact absurd hmem (List.not_mem_nil _)
    | cons e rest ih =>
      rcases List.mem_cons.mp hmem with heq | hmem'
      · rw [buildGalleryMap, ← heq]
        exact List.mem_cons_self _ _
      · rw [buildGalleryMap]
        exact List.mem_cons_of_mem _ (ih hmem')

/-- Witness for the amended C7 at a concrete gallery map with one failing
and one healthy source. -/
theorem C7_failure_degradation_witness :
    get_tvazteca none none = Except.ok ([], []) ∧
    ("img.A", ([] : List String)) ∈ buildGalleryMap
      [("img.A", Except.error PyExn.osError), ("img.B", Except.ok (["n"], ["g"]))] :=
  ⟨(C7_failure_degradation [] [] []).2.1,
    (C7_failure_degradation [] []
      [("img.A", Except.error PyExn.osError), ("img.B", Except.ok (["n"], ["g"]))]).2.2.2
      "img.A" PyExn.osError (List.mem_cons_self _ _)⟩

/-- The fixed six-field metrics record produced by `extract_metrics`: the
performance score is always a number (defaulting from 0 when absent), while
each audit value is a number or the empty cell (`None` here, `""` in the
script). -/
structure Metrics where
  score : ℚ
  cls : Option ℚ
  lcp : Option ℚ
  si : Option ℚ
  tbt : Option ℚ
  fcp : Option ℚ
deriving DecidableEq

/-- The `performance` category object of a Lighthouse report: its `score`
key may be absent. -/
structure PerfCat where
  score : Option ℚ
deriving DecidableEq

/-- The `categories` object of a Lighthouse report: its `performance` key
may be absent. -/
structure LhCategories where
  performance : Option PerfCat
deriving DecidableEq

/-- A Lighthouse JSON report as read by `extract_metrics`: an optional
`categories` object and an `audits` mapping from audit name to an optional
`numericValue`. -/
structure LhReport where
  categories : Option LhCategories
  audits : List (String × Option ℚ)

/-- `report.get("audits", {}).get(name, {}).get("numericValue", "")`: the
audit's numeric value, or the empty cell when the audit or its value is
absent. -/
def auditNumeric (r : LhReport) (name : String) : Option ℚ :=
  match r.audits.lookup name with
  | some v => v
  | none => none

/-- Round-half-to-even on an exact rational, the semantics of Python's
builtin `round` (modelled over ℚ; the binary-float representation error of
CPython floats is outside this model). -/
def rhe (q : ℚ) : ℤ :=
  if q - ⌊q⌋ < 1 / 2 then ⌊q⌋
  else if 1 / 2 < q - ⌊q⌋ then ⌊q⌋ + 1
  else if 2 ∣ ⌊q⌋ then ⌊q⌋ else ⌊q⌋ + 1

/-- Python's `round(x, 2)` over exact rationals. -/
def pyRound2 (q : ℚ) : ℚ := (rhe (q * 100) : ℚ) / 100

/-- Model of `extract_metrics(report)`:
`perf = report.get("categories", {}).get("performance", {}).get("score", 0) * 100`
rounded to two decimals, and the five named audits' `numericValue`s. -/
def extract_metrics (r : LhReport) : Metrics :=
  { score := pyRound2 ((((r.categories.getD { performance := none }).performance.getD
        { score := none }).score.getD 0) * 100)
    cls := auditNumeric r "cumulative-layout-shift"
    lcp := auditNumeric r "largest-contentful-paint"
    si := auditNumeric r "speed-index"
    tbt := auditNumeric r "total-blocking-time"
    fcp := auditNumeric r "first-contentful-paint" }

/-- C10: when the performance category score is absent from the report (the
lookup chain with empty-dict defaults yields nothing), `extract_metrics`
returns a record whose score field is exactly 0 — the missing score defaults
to 0 before the x100 scaling and 2-decimal rounding — and, the score field
being a number rather than an optional cell, the score cell written back is
the non-empty value 0 rather than an empty cell. -/
theorem C10_missing_score_zero (r : LhReport)
    (h : ((r.categories.getD { performance := none }).performance.getD
      { score := none }).score = none) :
    (extract_metrics r).score = 0 ∧
      some (extract_metrics r).score ≠ (none : Option ℚ) := by
  have hs : (extract_metrics r).score = pyRound2 (0 * 100) := by
    rw [extract_metrics]
    simp [h]
  refine ⟨?_, by simp⟩
  rw [hs]
  norm_num [pyRound2, rhe]

/-- Witness for C10 at a report with no categories object at all. -/
theorem C10_missing_score_zero_witness :
    (extract_metrics { categories := none, audits := [] }).score = 0 :=
  (C10_missing_score_zero { categories := none, audits := [] } rfl).1

/-- Python's `s.startswith(p)`, char-list based. -/
def pyStartsWith (s p : String) : Bool := leadsChars p.data s.data

/-- Cell `j` (0-indexed) of a sheet row. -/
def cellAt (row : List String) (j : Nat) : String := row.getD j ""

/-- `row[base + 1].strip().lower()`: the content-type cell of the 9-cell
group starting at `base`. -/
def groupCtype (row : List String) (base : Nat) : String :=
  pyLower (pyStrip (cellAt row (base + 1)))

/-- `row[base + 2].strip()`: the URL cell of the group. -/
def groupUrl (row : List String) (base : Nat) : String :=
  pyStrip (cellAt row (base + 2))

/-- `row[base + 3].strip()`: the metrics-score cell of the group. -/
def groupScoreCell (row : List String) (base : Nat) : String :=
  pyStrip (cellAt row (base + 3))

/-- The audit guard of the Lighthouse loop:
`content_type in ("nota", "video", "img") and url.startswith("http") and
score_cell == ""`. -/
def isCandidate (row : List String) (base : Nat) : Bool :=
  (["nota", "video", "img"].contains (groupCtype row base)) &&
    pyStartsWith (groupUrl row base) "http" && (groupScoreCell row base == "")

/-- The audit condition exactly as claim C9 words it: content-type
recognized, URL cell non-empty (rather than `http`-prefixed), score cell
empty. -/
def auditClaimCond (row : List String) (base : Nat) : Bool :=
  (["nota", "video", "img"].contains (groupCtype row base)) &&
    (!(groupUrl row base == "")) && (groupScoreCell row base == "")

/-- The six `update_cell` writes for one audited group: 1-indexed columns
`base+4 .. base+9` receive score, CLS, LCP, SI, TBT, FCP. -/
def sixUpdates (rowIdx base : Nat) (m : Metrics) : List (Nat × Nat × Option ℚ) :=
  [(rowIdx, base + 4, some m.score), (rowIdx, base + 5, m.cls), (rowIdx, base + 6, m.lcp),
   (rowIdx, base + 7, m.si), (rowIdx, base + 8, m.tbt), (rowIdx, base + 9, m.fcp)]

/-- The inner `for g in range(groups)` loop over one row: `lh` is the
`run_lighthouse` collaborator (`none` models failure after its retries).
Returns the accumulated cell updates and the list of URLs for which the
external check was invoked; a failed check contributes no updates and the
loop continues. -/
def auditRowGo (lh : String → Option Metrics) (rowIdx : Nat) (row : List String) :
    List Nat → List (Nat × Nat × Option ℚ) × List String
  | [] => ([], [])
  | g :: rest =>
    let q := auditRowGo lh rowIdx row rest
    if isCandidate row (g * 9) then
      match lh (groupUrl row (g * 9)) with
      | some m => (sixUpdates rowIdx (g * 9) m ++ q.1, groupUrl row (g * 9) :: q.2)
      | none => (q.1, groupUrl row (g * 9) :: q.2)
    else q

/-- One row of the Lighthouse loop: `groups = len(row) // 9`. -/
def auditRow (lh : String → Option Metrics) (rowIdx : Nat) (row : List String) :
    List (Nat × Nat × Option ℚ) × List String :=
  auditRowGo lh rowIdx row (List.range (row.length / 9))

/-- The full Lighthouse loop over `sheet.get_all_values()`, rows 1-indexed
by `enumerate(all_rows, start=1)`. -/
def auditAllGo (lh : String → Option Metrics) :
    Nat → List (List String) → List (Nat × Nat × Option ℚ) × List String
  | _, [] => ([], [])
  | idx, row :: rest =>
    let p := auditRow lh idx row
    let q := auditAllGo lh (idx + 1) rest
    (p.1 ++ q.1, p.2 ++ q.2)

/-- The audit phase as a function of the persisted rows and the external
checker. -/
def auditAll (lh : String → Option Metrics) (rows : List (List String)) :
    List (Nat × Nat × Option ℚ) × List String :=
  auditAllGo lh 1 rows

/-- The URLs of the groups of one row satisfying the audit guard, in group
order. -/
def candidateUrls (row : List String) : List String :=
  (List.range (row.length / 9)).filterMap (fun g =>
    if isCandidate row (g * 9) then some (groupUrl row (g * 9)) else none)

/-- The audit-guard URLs over all rows, in order. -/
def candidateUrlsAll (rows : List (List String)) : List String :=
  (rows.map candidateUrls).flatten

theorem auditRowGo_invoked (lh : String → Option Metrics) (rowIdx : Nat)
    (row : List String) : ∀ gs : List Nat,
    (auditRowGo lh rowIdx row gs).2 = gs.filterMap (fun g =>
      if isCandidate row (g * 9) then some (groupUrl row (g * 9)) else none) := by
  intro gs
  induction gs with
  | nil => rfl
  | cons g rest ih =>
    rw [auditRowGo]
    by_cases hc : isCandidate row (g * 9) = true
    · cases hlh : lh (groupUrl row (g * 9)) <;>
        simp [hc, hlh, List.filterMap_cons, ih]
    · have hc' : isCandidate row (g * 9) = false := by
        cases hv : isCandidate row (g * 9)
        · rfl
        · exact absurd hv hc
      simp [hc', List.filterMap_cons, ih]

theorem auditRowGo_no_updates (lh : String → Option Metrics) (rowIdx : Nat)
    (row : List String) (hall : ∀ u, lh u = none) : ∀ gs : List Nat,
    (auditRowGo lh rowIdx row gs).1 = [] := by
  intro gs
  induction gs with
  | nil => rfl
  | cons g rest ih =>
    rw [auditRowGo]
    by_cases hc : isCandidate row (g * 9) = true
    · simp [hc, hall, ih]
    · have hc' : isCandidate row (g * 9) = false := by
        cases hv : isCandidate row (g * 9)
        · rfl
        · exact absurd hv hc
      simp [hc', ih]

theorem auditAllGo_spec (lh : String → Option Metrics) :
    ∀ (rows : List (List String)) (idx : Nat),
    (auditAllGo lh idx rows).2 = candidateUrlsAll rows ∧
    ((∀ u, lh u = none) → (auditAllGo lh idx rows).1 = []) := by
  intro rows
  induction rows with
  | nil => intro idx; exact ⟨rfl, fun _ => rfl⟩
  | cons row rest ih =>
    intro idx
    constructor
    · show (auditRow lh idx row).2 ++ (auditAllGo lh (idx + 1) rest).2
          = candidateUrlsAll (row :: rest)
      rw [auditRow, auditRowGo_invoked, (ih (idx + 1)).1]
      rfl
    · intro hall
      show (auditRow lh idx row).1 ++ (auditAllGo lh (idx + 1) rest).1 = []
      rw [auditRow, auditRowGo_no_updates lh idx row hall, (ih (idx + 1)).2 hall]
      rfl

/-- C9 counterexample: the claim's audit condition — recognized content-type,
non-empty URL cell, empty score cell — is not what triggers an audit.  The
group `["2024-01-01", "nota", "foo", "", ...]` satisfies the claim's
condition (URL cell `"foo"` is non-empty), yet the Lighthouse loop never
invokes the checker on it, because the code additionally requires
`url.startswith("http")`. -/
theorem C9_audit_counterexample :
    auditClaimCond ["2024-01-01", "nota", "foo", "", "", "", "", "", ""] 0 = true ∧
    (auditAll (fun _ => none)
      [["2024-01-01", "nota", "foo", "", "", "", "", "", ""]]).2 = [] := by
  constructor
  · rfl
  · rfl

theorem sixUpdates_mem (rowIdx base : Nat) (m : Metrics) (upd : Nat × Nat × Option ℚ)
    (h : upd ∈ sixUpdates rowIdx base m) :
    upd.1 = rowIdx ∧ base + 4 ≤ upd.2.1 ∧ upd.2.1 ≤ base + 9 := by
  simp only [sixUpdates, List.mem_cons, List.not_mem_nil, or_false] at h
  rcases h with rfl | rfl | rfl | rfl | rfl | rfl <;>
    refine ⟨rfl, by simp, by simp⟩

theorem auditRowGo_updates (lh : String → Option Metrics) (rowIdx : Nat)
    (row : List String) : ∀ gs : List Nat,
    (auditRowGo lh rowIdx row gs).1 = (gs.map (fun g =>
      if isCandidate row (g * 9) then
        match lh (groupUrl row (g * 9)) with
        | some m => sixUpdates rowIdx (g * 9) m
        | none => []
      else [])).flatten := by
  intro gs
  induction gs with
  | nil => rfl
  | cons g rest ih =>
    rw [auditRowGo]
    by_cases hc : isCandidate row (g * 9) = true
    · cases hlh : lh (groupUrl row (g * 9)) <;> simp [hc, hlh, ih]
    · have hc' : isCandidate row (g * 9) = false := by
        cases hv : isCandidate row (g * 9)
        · rfl
        · exact absurd hv hc
      simp [hc', ih]

theorem auditAllGo_updates_mem (lh : String → Option Metrics) :
    ∀ (rows : List (List String)) (idx : Nat) (upd : Nat × Nat × Option ℚ),
    upd ∈ (auditAllGo lh idx rows).1 →
    ∃ k, k < rows.length ∧ ∃ g m,
      isCandidate (rows.getD k []) (g * 9) = true ∧
      lh (groupUrl (rows.getD k []) (g * 9)) = some m ∧
      upd ∈ sixUpdates (idx + k) (g * 9) m := by
  intro rows
  induction rows with
  | nil => intro idx upd h; exact absurd h (List.not_mem_nil upd)
  | cons row rest ih =>
    intro idx upd h
    have hsplit : upd ∈ (auditRow lh idx row).1 ∨ upd ∈ (auditAllGo lh (idx + 1) rest).1 := by
      have hm : upd ∈ (auditRow lh idx row).1 ++ (auditAllGo lh (idx + 1) rest).1 := h
      exact List.mem_append.mp hm
    rcases hsplit with h1 | h2
    · rw [auditRow, auditRowGo_updates] at h1
      obtain ⟨l, hl, hupd⟩ := List.mem_flatten.mp h1
      obtain ⟨g, _, rfl⟩ := List.mem_map.mp hl
      by_cases hc : isCandidate row (g * 9) = true
      · rw [if_pos hc] at hupd
        cases hlh : lh (groupUrl row (g * 9)) with
        | some m =>
          rw [hlh] at hupd
          refine ⟨0, Nat.succ_pos _, g, m, ?_, ?_, ?_⟩
          · simpa using hc
          · simpa using hlh
          · simpa using hupd
        | none =>
          rw [hlh] at hupd
          exact absurd hupd (List.not_mem_nil upd)
      · rw [if_neg hc] at hupd
        exact absurd hupd (List.not_mem_nil upd)
    · obtain ⟨k, hk, g, m, hc, hlh, hupd⟩ := ih (idx + 1) upd h2
      refine ⟨k + 1, Nat.succ_lt_succ hk, g, m, ?_, ?_, ?_⟩
      · simpa using hc
      · simpa using hlh
      · have harith : idx + 1 + k = idx + (k + 1) := by omega
        rw [harith] at hupd
        exact hupd

/-- C9 (amended): a 9-cell group of a persisted row (groups delimited by
dividing the row length by 9) is audited — the external check invoked on its
URL — exactly when its content-type cell is one of the three recognized
types, its URL cell starts with `http` (in particular is non-empty), and its
metrics-score cell is empty; the set of audited groups does not depend on
the checker's outcomes; in any run — including runs where other candidates
succeed — a candidate group whose check fails after exhausting its retries
has none of its six metric cells written (no update addressed to row `k+1`,
columns `g*9+4 .. g*9+9` is issued) while the run continues through the
remaining candidates; and when every check of the run fails, no cell update
at all is issued. -/
theorem C9_audit_condition (lh : String → Option Metrics) (rows : List (List String)) :
    (auditAll lh rows).2 = candidateUrlsAll rows ∧
    (∀ k g col v, isCandidate (rows.getD k []) (g * 9) = true →
      lh (groupUrl (rows.getD k []) (g * 9)) = none →
      g * 9 + 4 ≤ col → col ≤ g * 9 + 9 →
      (k + 1, col, v) ∉ (auditAll lh rows).1) ∧
    ((∀ u, lh u = none) → (auditAll lh rows).1 = []) := by
  refine ⟨(auditAllGo_spec lh rows 1).1, ?_, (auditAllGo_spec lh rows 1).2⟩
  intro k g col v hcand hfail hlo hhi hmem
  obtain ⟨k', hk', g', m, hc', hlh', hupd⟩ := auditAllGo_updates_mem lh rows 1 (k + 1, col, v) hmem
  obtain ⟨hrow, hcol_lo, hcol_hi⟩ := sixUpdates_mem (1 + k') (g' * 9) m (k + 1, col, v) hupd
  have hrow' : k + 1 = 1 + k' := hrow
  have hlo' : g' * 9 + 4 ≤ col := hcol_lo
  have hhi' : col ≤ g' * 9 + 9 := hcol_hi
  have hkk : k' = k := by omega
  subst hkk
  have hgg : g' = g := by omega
  subst hgg
  rw [hfail] at hlh'
  exact Option.noConfusion hlh'

/-- The two-candidate sheet of the C9 witness: both rows pass the audit
guard. -/
def c9rowA : List String := ["2024-01-01", "nota", "http://a", "", "", "", "", "", ""]

/-- Second row of the C9 witness sheet, whose check will fail. -/
def c9rowB : List String := ["2024-01-01", "video", "http://b", "", "", "", "", "", ""]

/-- A concrete metrics record for the succeeding check of the C9 witness. -/
def c9metrics : Metrics :=
  { score := 95, cls := some 1, lcp := none, si := none, tbt := none, fcp := none }

/-- A mixed-outcome checker: succeeds on the first row's URL, fails (after
its retries) on every other URL. -/
def c9check : String → Option Metrics := fun u =>
  if u = "http://a" then some c9metrics else none

/-- Witness for C9 on a mixed run — one candidate succeeds, the other
fails: both candidates are audited, and the failing group's score cell
(row 2, column 4) receives no update. -/
theorem C9_audit_condition_witness :
    (auditAll c9check [c9rowA, c9rowB]).2 = candidateUrlsAll [c9rowA, c9rowB] ∧
    (1 + 1, 0 * 9 + 4, (some (0 : ℚ))) ∉ (auditAll c9check [c9rowA, c9rowB]).1 :=
  ⟨(C9_audit_condition c9check [c9rowA, c9rowB]).1,
   (C9_audit_condition c9check [c9rowA, c9rowB]).2.1 1 0 (0 * 9 + 4) (some 0)
     (by decide) (by decide) (by decide) (by decide)⟩
